import Mathlib

/-!
Shallow embedding of the Juice-Server HTML transform service
(source: src/api/index.js).

The service is a thin Express app around one pipeline function
`processHtml`, which

1. rejects falsy input (`if (!htmlContent) throw ...`),
2. runs the external `juice` CSS-inlining engine with the options
   `applyStyleTags: true, removeStyleTags: true, preserveMediaQueries: true`,
3. reloads the result with cheerio and remaps every element whose `id`
   attribute starts with the letter `i` to a fresh `"id-" + uuidv4()`
   identifier, rewriting `href="#oldId"` and `for="oldId"` attributes of
   matched reference elements,
4. serialises the document again.

The DOM is embedded as a list of elements, an element being its attribute
list (attribute names are unique in parsed HTML; `getAttr`/`setAttr` work
on the first occurrence, which coincides with cheerio's attribute-map
semantics).  The external engines (juice, cheerio's parser/serialiser,
the uuid source) are parameters of the pipeline, exactly as the spec
declares them: opaque capabilities consumed by the glue code.
-/

namespace JuiceServer

/-- An attribute: name and value. -/
abbrev Attr := String × String

/-- An element, abstracted to its attribute list (document order of
elements is the list order of the enclosing document). -/
abbrev Element := List Attr

/-- cheerio `$el.attr(name)`: the value of attribute `name`, if present. -/
def getAttr : Element → String → Option String
  | [], _ => none
  | a :: rest, n => if a.1 = n then some a.2 else getAttr rest n

/-- cheerio `$el.attr(name, v)`: set attribute `name` to `v` (replace the
existing binding, or append a new one). -/
def setAttr : Element → String → String → Element
  | [], n, v => [(n, v)]
  | a :: rest, n, v => if a.1 = n then (n, v) :: rest else a :: setAttr rest n v

/-- JavaScript truthiness of an attribute lookup: `$ref.attr(name)` is
truthy iff the attribute exists and its value is a non-empty string. -/
def truthyAttr : Option String → Bool
  | some s => decide (s ≠ "")
  | none => false

/-- The value test of the cheerio selector `[id^="i"]` (line 50):
the attribute value begins with the one-character string `"i"`. -/
def idValueAuto (v : String) : Bool :=
  match v.data with
  | c :: _ => c = 'i'
  | [] => false

/-- Whether an element is matched by `$('[id^="i"]')`. -/
def matchesAutoId (el : Element) : Bool :=
  match getAttr el "id" with
  | some v => idValueAuto v
  | none => false

/-- The value of attribute `name` of the `j`-th element of the document. -/
def attrAt (els : List Element) (j : Nat) (name : String) : Option String :=
  getAttr (els.getD j []) name

/-- Line 59: `if ($ref.attr("href")) $ref.attr("href", "#" + newId);`. -/
def rewriteHref (newId : String) (ref : Element) : Element :=
  if truthyAttr (getAttr ref "href") then setAttr ref "href" ("#" ++ newId) else ref

/-- Line 60: `if ($ref.attr("for")) $ref.attr("for", newId);`. -/
def rewriteFor (newId : String) (ref : Element) : Element :=
  if truthyAttr (getAttr ref "for") then setAttr ref "for" newId else ref

/-- Lines 57-61: the body of the inner loop over the selection
`[href="#oldId"], [for="oldId"]`.  A matched reference element gets its
`href` attribute set to `"#" + newId` when `href` is truthy, and then its
`for` attribute set to `newId` when `for` is truthy; an unmatched element
is left as it is. -/
def rewriteRef (oldId newId : String) (ref : Element) : Element :=
  if getAttr ref "href" = some ("#" ++ oldId) ∨ getAttr ref "for" = some oldId then
    rewriteFor newId (rewriteHref newId ref)
  else ref

/-- One iteration of the outer `.each` (lines 50-62) for the element at
position `idx`: read its current id, give it the fresh `newId`, then
rewrite the references throughout the current document.  (The `none`
branch is unreachable for the positions the loop visits, since they were
selected by `[id^="i"]`.) -/
def remapStep (newId : String) (idx : Nat) (els : List Element) : List Element :=
  match getAttr (els.getD idx []) "id" with
  | none => els
  | some oldId =>
    let els1 := els.set idx (setAttr (els.getD idx []) "id" newId)
    els1.map (rewriteRef oldId newId)

/-- The snapshot taken by `$('[id^="i"]')`: the positions (in document
order) of the elements matched at selection time.  cheerio's `.each`
iterates this snapshot; later id changes do not extend it. -/
def autoIdxs (els : List Element) : List Nat :=
  (List.range els.length).filter (fun i => matchesAutoId (els.getD i []))

/-- The `.each` loop: process the snapshot positions in order, drawing
`uuids k` for the `k`-th call of `uuidv4()` and using
`"id-" ++ uuids k` as the fresh identifier (line 53). -/
def foldSteps (uuids : Nat → String) : Nat → List Nat → List Element → List Element
  | _, [], els => els
  | k, idx :: rest, els => foldSteps uuids (k + 1) rest (remapStep ("id-" ++ uuids k) idx els)

/-- Lines 49-62: the whole id-remapping stage of `processHtml`. -/
def remapIds (uuids : Nat → String) (els : List Element) : List Element :=
  foldSteps uuids 0 (autoIdxs els) els

/-- All id-attribute values present in a document. -/
def docIds (els : List Element) : List String :=
  els.filterMap (fun el => getAttr el "id")

/-! ### Basic lemmas about attribute access -/

theorem getAttr_setAttr_self (el : Element) (n v : String) :
    getAttr (setAttr el n v) n = some v := by
  induction el with
  | nil => simp [setAttr, getAttr]
  | cons a rest ih =>
    by_cases h : a.1 = n
    · simp [setAttr, h, getAttr]
    · simp [setAttr, h, getAttr, ih]

theorem getAttr_setAttr_ne (el : Element) (n v m : String) (h : m ≠ n) :
    getAttr (setAttr el n v) m = getAttr el m := by
  induction el with
  | nil =>
    simp only [setAttr, getAttr]
    rw [if_neg (fun he => h he.symm)]
  | cons a rest ih =>
    by_cases ha : a.1 = n
    · subst ha
      simp only [setAttr, if_pos rfl, getAttr]
      rw [if_neg (fun he : a.1 = m => h he.symm)]
      rw [if_neg (fun he : a.1 = m => h he.symm)]
    · simp only [setAttr, if_neg ha, getAttr]
      by_cases ham : a.1 = m
      · rw [if_pos ham, if_pos ham]
      · rw [if_neg ham, if_neg ham]
        exact ih

theorem getAttr_rewriteHref (n : String) (ref : Element) (name : String)
    (hh : name ≠ "href") :
    getAttr (rewriteHref n ref) name = getAttr ref name := by
  unfold rewriteHref
  split_ifs
  · exact getAttr_setAttr_ne _ _ _ _ hh
  · rfl

theorem getAttr_rewriteFor (n : String) (ref : Element) (name : String)
    (hf : name ≠ "for") :
    getAttr (rewriteFor n ref) name = getAttr ref name := by
  unfold rewriteFor
  split_ifs
  · exact getAttr_setAttr_ne _ _ _ _ hf
  · rfl

theorem getAttr_rewriteRef_other (o n : String) (ref : Element) (name : String)
    (hh : name ≠ "href") (hf : name ≠ "for") :
    getAttr (rewriteRef o n ref) name = getAttr ref name := by
  unfold rewriteRef
  split_ifs
  · rw [getAttr_rewriteFor _ _ _ hf, getAttr_rewriteHref _ _ _ hh]
  · rfl

theorem attrAt_of_getElem? {els : List Element} {j : Nat} {el : Element}
    (h : els[j]? = some el) (n : String) : attrAt els j n = getAttr el n := by
  simp [attrAt, List.getD_eq_getElem?_getD, h]

theorem attrAt_of_getElem?_none {els : List Element} {j : Nat}
    (h : els[j]? = none) (n : String) : attrAt els j n = none := by
  simp [attrAt, List.getD_eq_getElem?_getD, h, getAttr]

theorem lt_length_of_attrAt {els : List Element} {j : Nat} {n v : String}
    (h : attrAt els j n = some v) : j < els.length := by
  by_contra hlt
  rw [attrAt_of_getElem?_none (List.getElem?_eq_none (Nat.le_of_not_lt hlt)) n] at h
  exact Option.noConfusion h

/-! ### Lemmas about one remap step -/

theorem length_remapStep (n : String) (idx : Nat) (els : List Element) :
    (remapStep n idx els).length = els.length := by
  unfold remapStep
  split <;> simp

theorem attrAt_remapStep_id_ne (n : String) (idx : Nat) (els : List Element)
    (j : Nat) (h : j ≠ idx) :
    attrAt (remapStep n idx els) j "id" = attrAt els j "id" := by
  unfold remapStep
  split
  · rfl
  · rename_i oldId hold
    cases hj : els[j]? with
    | none =>
      have hlen : els.length ≤ j := List.getElem?_eq_none_iff.mp hj
      have hj2 : ((els.set idx (setAttr (els.getD idx []) "id" n)).map
          (rewriteRef oldId n))[j]? = none := by
        apply List.getElem?_eq_none
        simpa using hlen
      rw [attrAt_of_getElem?_none hj, attrAt_of_getElem?_none hj2]
    | some el =>
      have hj2 : ((els.set idx (setAttr (els.getD idx []) "id" n)).map
          (rewriteRef oldId n))[j]? = some (rewriteRef oldId n el) := by
        rw [List.getElem?_map, List.getElem?_set_ne (Ne.symm h), hj]
        rfl
      rw [attrAt_of_getElem? hj, attrAt_of_getElem? hj2]
      exact getAttr_rewriteRef_other _ _ _ _ (by decide) (by decide)

theorem attrAt_remapStep_id_self (n : String) (idx : Nat) (els : List Element)
    {oldId : String} (h : attrAt els idx "id" = some oldId) :
    attrAt (remapStep n idx els) idx "id" = some n := by
  have hlt : idx < els.length := lt_length_of_attrAt h
  have hget : getAttr (els.getD idx []) "id" = some oldId := h
  unfold remapStep
  rw [hget]
  have hj2 : ((els.set idx (setAttr (els.getD idx []) "id" n)).map
      (rewriteRef oldId n))[idx]? =
      some (rewriteRef oldId n (setAttr (els.getD idx []) "id" n)) := by
    rw [List.getElem?_map, List.getElem?_set_self (by simpa using hlt)]
    rfl
  rw [attrAt_of_getElem? hj2]
  rw [getAttr_rewriteRef_other _ _ _ _ (by decide) (by decide)]
  exact getAttr_setAttr_self _ _ _

theorem attrAt_remapStep_other (n : String) (idx : Nat) (els : List Element)
    (j : Nat) (name : String)
    (h1 : name ≠ "id") (h2 : name ≠ "href") (h3 : name ≠ "for") :
    attrAt (remapStep n idx els) j name = attrAt els j name := by
  unfold remapStep
  split
  · rfl
  · rename_i oldId hold
    cases hj : els[j]? with
    | none =>
      have hlen : els.length ≤ j := List.getElem?_eq_none_iff.mp hj
      have hj2 : ((els.set idx (setAttr (els.getD idx []) "id" n)).map
          (rewriteRef oldId n))[j]? = none := by
        apply List.getElem?_eq_none
        simpa using hlen
      rw [attrAt_of_getElem?_none hj, attrAt_of_getElem?_none hj2]
    | some el =>
      by_cases hji : j = idx
      · subst hji
        have hlt : j < els.length := by
          exact (List.getElem?_eq_some_iff.mp hj).1
        have hj2 : ((els.set j (setAttr (els.getD j []) "id" n)).map
            (rewriteRef oldId n))[j]? =
            some (rewriteRef oldId n (setAttr (els.getD j []) "id" n)) := by
          rw [List.getElem?_map, List.getElem?_set_self (by simpa using hlt)]
          rfl
        rw [attrAt_of_getElem? hj, attrAt_of_getElem? hj2]
        rw [getAttr_rewriteRef_other _ _ _ _ h2 h3]
        rw [getAttr_setAttr_ne _ _ _ _ h1]
        have : els.getD j [] = el := by
          simp [List.getD_eq_getElem?_getD, hj]
        rw [this]
      · have hj2 : ((els.set idx (setAttr (els.getD idx []) "id" n)).map
            (rewriteRef oldId n))[j]? = some (rewriteRef oldId n el) := by
          rw [List.getElem?_map, List.getElem?_set_ne (Ne.symm hji), hj]
          rfl
        rw [attrAt_of_getElem? hj, attrAt_of_getElem? hj2]
        exact getAttr_rewriteRef_other _ _ _ _ h2 h3

/-! ### Lemmas about the fold over the matched snapshot -/

theorem length_foldSteps (uuids : Nat → String) (idxs : List Nat) (k : Nat)
    (els : List Element) : (foldSteps uuids k idxs els).length = els.length := by
  induction idxs generalizing k els with
  | nil => rfl
  | cons i rest ih => rw [foldSteps, ih, length_remapStep]

theorem attrAt_foldSteps_id_notMem (uuids : Nat → String) (idxs : List Nat)
    (k : Nat) (els : List Element) (j : Nat) (h : j ∉ idxs) :
    attrAt (foldSteps uuids k idxs els) j "id" = attrAt els j "id" := by
  induction idxs generalizing k els with
  | nil => rfl
  | cons i rest ih =>
    rw [foldSteps]
    rw [ih (k + 1) _ (fun hm => h (List.mem_cons_of_mem _ hm))]
    have hji : j ≠ i := by
      intro he
      exact h (he ▸ List.mem_cons_self i rest)
    rw [attrAt_remapStep_id_ne _ _ _ _ hji]

theorem attrAt_foldSteps_other (uuids : Nat → String) (idxs : List Nat)
    (k : Nat) (els : List Element) (j : Nat) (name : String)
    (h1 : name ≠ "id") (h2 : name ≠ "href") (h3 : name ≠ "for") :
    attrAt (foldSteps uuids k idxs els) j name = attrAt els j name := by
  induction idxs generalizing k els with
  | nil => rfl
  | cons i rest ih =>
    rw [foldSteps, ih _ _, attrAt_remapStep_other _ _ _ _ _ h1 h2 h3]

theorem attrAt_foldSteps_id_get? (uuids : Nat → String) (idxs : List Nat)
    (k : Nat) (els : List Element) (t : Nat) (idx : Nat)
    (hnd : idxs.Nodup) (hget : idxs[t]? = some idx)
    {o : String} (hid : attrAt els idx "id" = some o) :
    attrAt (foldSteps uuids k idxs els) idx "id" = some ("id-" ++ uuids (k + t)) := by
  induction idxs generalizing k els t with
  | nil => simp at hget
  | cons i rest ih =>
    cases t with
    | zero =>
      have hi : i = idx := by simpa using hget
      subst hi
      rw [foldSteps]
      rw [attrAt_foldSteps_id_notMem _ _ _ _ _ (List.Nodup.not_mem hnd)]
      simpa using attrAt_remapStep_id_self ("id-" ++ uuids k) i els hid
    | succ t =>
      have hget2 : rest[t]? = some idx := by simpa using hget
      have hmem : idx ∈ rest := by
        obtain ⟨hlt, he⟩ := List.getElem?_eq_some_iff.mp hget2
        exact he ▸ List.getElem_mem hlt
      have hne : idx ≠ i := by
        intro he
        exact (List.Nodup.not_mem hnd) (he ▸ hmem)
      rw [foldSteps]
      have hid2 : attrAt (remapStep ("id-" ++ uuids k) i els) idx "id" = some o := by
        rw [attrAt_remapStep_id_ne _ _ _ _ hne]
        exact hid
      have := ih (k + 1) (remapStep ("id-" ++ uuids k) i els) t
        (List.Nodup.of_cons hnd) hget2 hid2
      rw [this]
      ring_nf

/-! ### The matched snapshot and document identifiers -/

theorem autoIdxs_nodup (els : List Element) : (autoIdxs els).Nodup :=
  List.Nodup.filter _ (List.nodup_range _)

theorem mem_autoIdxs (els : List Element) (j : Nat) :
    j ∈ autoIdxs els ↔ j < els.length ∧ matchesAutoId (els.getD j []) = true := by
  simp [autoIdxs, List.mem_filter, List.mem_range]

theorem matchesAutoId_iff (el : Element) :
    matchesAutoId el = true ↔ ∃ v, getAttr el "id" = some v ∧ idValueAuto v = true := by
  unfold matchesAutoId
  cases h : getAttr el "id" <;> simp

theorem getD_of_getElem? {els : List Element} {j : Nat} {el : Element}
    (h : els[j]? = some el) : els.getD j [] = el := by
  simp [List.getD_eq_getElem?_getD, h]

theorem getD_mem {els : List Element} {j : Nat} (h : j < els.length) :
    els.getD j [] ∈ els := by
  have he : els[j]? = some els[j] := List.getElem?_eq_some_iff.mpr ⟨h, rfl⟩
  rw [getD_of_getElem? he]
  exact List.getElem_mem h

theorem attrAt_mem_docIds {els : List Element} {j : Nat} {v : String}
    (h : attrAt els j "id" = some v) : v ∈ docIds els := by
  have hlt := lt_length_of_attrAt h
  exact List.mem_filterMap.mpr ⟨els.getD j [], getD_mem hlt, h⟩

theorem append_cancel_left_str {a b c : String} (h : a ++ b = a ++ c) : b = c := by
  apply String.ext
  have h2 := congrArg String.data h
  rw [String.data_append, String.data_append] at h2
  exact List.append_cancel_left h2

theorem idValueAuto_append (u : String) : idValueAuto ("id-" ++ u) = true := by
  unfold idValueAuto
  rw [String.data_append]
  rfl

theorem idValueAuto_ne_empty {v : String} (h : idValueAuto v = true) : v ≠ "" := by
  intro he
  subst he
  exact Bool.noConfusion ((by decide : idValueAuto "" = false) ▸ h)

/-- Presence and pattern of the id at a snapshot position. -/
theorem autoIdxs_getElem?_spec {els : List Element} {k idx : Nat}
    (h : (autoIdxs els)[k]? = some idx) :
    idx < els.length ∧ ∃ o, attrAt els idx "id" = some o ∧ idValueAuto o = true := by
  have hmem : idx ∈ autoIdxs els := by
    obtain ⟨hlt, he⟩ := List.getElem?_eq_some_iff.mp h
    exact he ▸ List.getElem_mem hlt
  obtain ⟨hl, hm⟩ := (mem_autoIdxs els idx).mp hmem
  obtain ⟨v, hv, hp⟩ := (matchesAutoId_iff _).mp hm
  exact ⟨hl, v, hv, hp⟩

/-- The id written by `remapIds` at the `k`-th snapshot position. -/
theorem attrAt_remapIds_auto (uuids : Nat → String) (els : List Element)
    {k idx : Nat} (h : (autoIdxs els)[k]? = some idx) :
    attrAt (remapIds uuids els) idx "id" = some ("id-" ++ uuids k) := by
  obtain ⟨hl, o, ho, hp⟩ := autoIdxs_getElem?_spec h
  have := attrAt_foldSteps_id_get? uuids (autoIdxs els) 0 els k idx
    (autoIdxs_nodup els) h ho
  rw [Nat.zero_add] at this
  exact this

/-- Positions not matched by the snapshot keep their id attribute. -/
theorem attrAt_remapIds_notAuto (uuids : Nat → String) (els : List Element)
    {j : Nat} (h : j ∉ autoIdxs els) :
    attrAt (remapIds uuids els) j "id" = attrAt els j "id" :=
  attrAt_foldSteps_id_notMem uuids (autoIdxs els) 0 els j h

/-! ### Claim C6 -/

/-- C6: every new identifier written by the remap stage of `processHtml`
differs from the original identifier it replaces, the new identifiers are
mutually distinct, and each is distinct from every identifier of the output
document that was not remapped (which keeps its original value) — under the
spec's assumption on the generator: the drawn values are fresh for the
document and mutually distinct (`uuidv4` collisions are cryptographically
improbable). -/
theorem C6_new_ids_globally_unique (els : List Element) (uuids : Nat → String)
    (hfresh : ∀ k < (autoIdxs els).length, ("id-" ++ uuids k) ∉ docIds els)
    (hinj : ∀ k < (autoIdxs els).length, ∀ k2 < (autoIdxs els).length,
      k ≠ k2 → uuids k ≠ uuids k2) :
    ∀ k idx, (autoIdxs els)[k]? = some idx →
      ∃ oldId, attrAt els idx "id" = some oldId ∧
        attrAt (remapIds uuids els) idx "id" = some ("id-" ++ uuids k) ∧
        "id-" ++ uuids k ≠ oldId ∧
        (∀ k2 idx2, (autoIdxs els)[k2]? = some idx2 → k ≠ k2 →
          "id-" ++ uuids k ≠ "id-" ++ uuids k2) ∧
        (∀ j v, j ∉ autoIdxs els → attrAt els j "id" = some v →
          attrAt (remapIds uuids els) j "id" = some v ∧ "id-" ++ uuids k ≠ v) := by
  intro k idx h
  obtain ⟨hl, o, ho, hp⟩ := autoIdxs_getElem?_spec h
  have hk : k < (autoIdxs els).length := (List.getElem?_eq_some_iff.mp h).1
  refine ⟨o, ho, attrAt_remapIds_auto uuids els h, ?_, ?_, ?_⟩
  · exact fun he => hfresh k hk (he ▸ attrAt_mem_docIds ho)
  · intro k2 idx2 h2 hne he
    exact hinj k hk k2 (List.getElem?_eq_some_iff.mp h2).1 hne
      (append_cancel_left_str he)
  · intro j v hj hv
    refine ⟨?_, fun he => hfresh k hk (he ▸ attrAt_mem_docIds hv)⟩
    rw [attrAt_remapIds_notAuto uuids els hj]
    exact hv

/-- Witness for C6 on the document with ids `i1` (auto) and `x` (kept). -/
theorem C6_new_ids_globally_unique_witness :
    (∀ k < (autoIdxs [[("id", "i1")], [("id", "x")]]).length,
      ("id-" ++ String.mk (List.replicate (k + 1) 'u'))
        ∉ docIds [[("id", "i1")], [("id", "x")]]) ∧
    (∀ k < (autoIdxs [[("id", "i1")], [("id", "x")]]).length,
      ∀ k2 < (autoIdxs [[("id", "i1")], [("id", "x")]]).length, k ≠ k2 →
        String.mk (List.replicate (k + 1) 'u')
          ≠ String.mk (List.replicate (k2 + 1) 'u')) ∧
    (∃ oldId, attrAt [[("id", "i1")], [("id", "x")]] 0 "id" = some oldId ∧
      attrAt (remapIds (fun k => String.mk (List.replicate (k + 1) 'u'))
          [[("id", "i1")], [("id", "x")]]) 0 "id"
        = some ("id-" ++ String.mk (List.replicate (0 + 1) 'u')) ∧
      "id-" ++ String.mk (List.replicate (0 + 1) 'u') ≠ oldId ∧
      (∀ k2 idx2, (autoIdxs [[("id", "i1")], [("id", "x")]])[k2]? = some idx2 →
        0 ≠ k2 → "id-" ++ String.mk (List.replicate (0 + 1) 'u')
          ≠ "id-" ++ String.mk (List.replicate (k2 + 1) 'u')) ∧
      (∀ j v, j ∉ autoIdxs [[("id", "i1")], [("id", "x")]] →
        attrAt [[("id", "i1")], [("id", "x")]] j "id" = some v →
        attrAt (remapIds (fun k => String.mk (List.replicate (k + 1) 'u'))
            [[("id", "i1")], [("id", "x")]]) j "id" = some v ∧
          "id-" ++ String.mk (List.replicate (0 + 1) 'u') ≠ v)) :=
  ⟨by decide, by decide,
    C6_new_ids_globally_unique [[("id", "i1")], [("id", "x")]]
      (fun k => String.mk (List.replicate (k + 1) 'u'))
      (by decide) (by decide) 0 0 (by decide)⟩

/-! ### Claim C9 -/

/-- C9: the auto-generated pattern implemented by the remap stage is
exactly "the id value begins with the lowercase character i": a position is
in the remapped snapshot iff its id value begins with `i` (so `intro` and
`image` match while `Intro` does not); every snapshot position receives the
identifier `id-` followed by the drawn uuid; an element whose id does not
begin with `i` is never remapped; and every replacement value `id-<uuid>`
itself begins with `i`, hence matches the pattern on a subsequent run. -/
theorem C9_pattern_lowercase_i (els : List Element) (uuids : Nat → String) :
    (∀ j, j < els.length →
      (j ∈ autoIdxs els ↔ ∃ v, attrAt els j "id" = some v ∧ idValueAuto v = true)) ∧
    (idValueAuto "intro" = true ∧ idValueAuto "image" = true ∧
      idValueAuto "Intro" = false ∧ idValueAuto "x1" = false) ∧
    (∀ u, idValueAuto ("id-" ++ u) = true) ∧
    (∀ k idx, (autoIdxs els)[k]? = some idx →
      attrAt (remapIds uuids els) idx "id" = some ("id-" ++ uuids k)) ∧
    (∀ j v, attrAt els j "id" = some v → idValueAuto v = false →
      attrAt (remapIds uuids els) j "id" = some v) := by
  refine ⟨?_, by decide, idValueAuto_append,
    fun k idx h => attrAt_remapIds_auto uuids els h, ?_⟩
  · intro j hj
    rw [mem_autoIdxs els j, matchesAutoId_iff]
    exact and_iff_right hj
  · intro j v hv hnp
    have hnot : j ∉ autoIdxs els := by
      rw [mem_autoIdxs]
      rintro ⟨hl, hm⟩
      obtain ⟨w, hw, hwp⟩ := (matchesAutoId_iff _).mp hm
      have hw2 : attrAt els j "id" = some w := hw
      rw [hv] at hw2
      injection hw2 with hvw
      rw [hvw] at hnp
      exact Bool.noConfusion (hnp ▸ hwp)
    rw [attrAt_remapIds_notAuto uuids els hnot]
    exact hv

/-- Witness for C9: `intro` is remapped, `Intro` is untouched. -/
theorem C9_pattern_lowercase_i_witness :
    (0 < ([[("id", "intro")], [("id", "Intro")]] : List Element).length) ∧
    (0 ∈ autoIdxs [[("id", "intro")], [("id", "Intro")]] ↔
      ∃ v, attrAt [[("id", "intro")], [("id", "Intro")]] 0 "id" = some v ∧
        idValueAuto v = true) ∧
    attrAt (remapIds (fun _ => "u") [[("id", "intro")], [("id", "Intro")]]) 0 "id"
      = some ("id-" ++ "u") ∧
    attrAt (remapIds (fun _ => "u") [[("id", "intro")], [("id", "Intro")]]) 1 "id"
      = some "Intro" :=
  ⟨by decide,
    (C9_pattern_lowercase_i [[("id", "intro")], [("id", "Intro")]] (fun _ => "u")).1
      0 (by decide),
    (C9_pattern_lowercase_i [[("id", "intro")], [("id", "Intro")]]
      (fun _ => "u")).2.2.2.1 0 0 (by decide),
    (C9_pattern_lowercase_i [[("id", "intro")], [("id", "Intro")]]
      (fun _ => "u")).2.2.2.2 1 "Intro" (by decide) (by decide)⟩

/-! ### The document with stylesheet blocks, and the DOM-level pipeline

An embedded stylesheet block is abstracted to its CSS text together with
whether it consists of media-conditional rules (the juice option
`preserveMediaQueries: true` keeps those; `removeStyleTags: true` with
`applyStyleTags: true` inlines and drops the unconditional ones).
-/

structure StyleBlock where
  mediaConditional : Bool
  css : String
  deriving DecidableEq

structure Doc where
  styles : List StyleBlock
  elements : List Element
  deriving DecidableEq

/-- The DOM-level view of `processHtml` after its input guard: run the
external inlining engine (an opaque capability, called with the fixed
options of line 42-46), then remap the ids of the resulting document
(lines 49-62).  The remap stage touches only element attributes, never the
residual stylesheet blocks. -/
def processHtmlDom (inliner : Doc → Except String Doc) (uuids : Nat → String)
    (doc : Doc) : Except String Doc :=
  match inliner doc with
  | Except.error m => Except.error m
  | Except.ok d => Except.ok ⟨d.styles, remapIds uuids d.elements⟩

/-! ### The request-level pipeline and the HTTP surface -/

/-- The JavaScript values a parsed request body can be in this app:
`undefined` (no parser matched), `null`, a string (the `text/html` parser),
or a non-string JSON value, abstracted to an opaque truthy object. -/
inductive JSValue where
  | undef
  | null
  | str (s : String)
  | obj
  deriving DecidableEq

/-- JavaScript truthiness, as tested by `if (!htmlContent)` on lines 37 and
116/143: `undefined` and `null` are falsy, a string is truthy iff
non-empty, an object is truthy. -/
def truthy : JSValue → Bool
  | JSValue.undef => false
  | JSValue.null => false
  | JSValue.str s => decide (s ≠ "")
  | JSValue.obj => true

/-- The errors `processHtml` can raise: the input guard of lines 37-39
(`new Error('HTML content is required')`), or a failure propagated from the
external engines. -/
inductive PError where
  | invalidInput
  | processingFailure (msg : String)
  deriving DecidableEq

/-- `err.message` as read by the route handlers. -/
def PError.message : PError → String
  | PError.invalidInput => "HTML content is required"
  | PError.processingFailure m => m

/-- Lines 36-65, `processHtml`: reject falsy input before anything else;
otherwise run the juice engine (`juiceF`, an opaque text-to-text capability
carrying the fixed options, which throws on failure), reload the result
(`load`), remap ids, and serialise (`renderHtml`). -/
def processHtml (juiceF : JSValue → Except String String)
    (load : String → Doc) (renderHtml : Doc → String) (uuids : Nat → String)
    (htmlContent : JSValue) : Except PError String :=
  if truthy htmlContent = false then Except.error PError.invalidInput
  else
    match juiceF htmlContent with
    | Except.error m => Except.error (PError.processingFailure m)
    | Except.ok html =>
      let d := load html
      Except.ok (renderHtml ⟨d.styles, remapIds uuids d.elements⟩)

/-- The response bodies the app can produce. -/
inductive RespBody where
  | empty
  | noContentError                          -- error: No HTML content provided
  | success (html filename : String)        -- success, html, filename
  | failure (message : String)              -- success false, error label, message
  | htmlDoc (html : String)                 -- raw HTML payload
  | templateNotFound (message : String)     -- error: Template file not found
  | internalError                           -- Internal Server Error
  deriving DecidableEq

structure Response where
  status : Nat
  headers : List (String × String)
  body : RespBody
  deriving DecidableEq

/-- `req.headers['x-filename'] || 'newsletter.html'` (lines 114/141): an
absent or empty header falls back to the default. -/
def filenameOf : Option String → String
  | some s => if s = "" then "newsletter.html" else s
  | none => "newsletter.html"

/-- Lines 111-135, `POST /process`: 400 on falsy body, JSON success
envelope on success, 500 failure envelope when `processHtml` throws. -/
def processRoute (juiceF : JSValue → Except String String)
    (load : String → Doc) (renderHtml : Doc → String) (uuids : Nat → String)
    (body : JSValue) (xFilename : Option String) : Response :=
  let filename := filenameOf xFilename
  if truthy body = false then
    ⟨400, [], RespBody.noContentError⟩
  else
    match processHtml juiceF load renderHtml uuids body with
    | Except.ok html => ⟨200, [], RespBody.success html filename⟩
    | Except.error e => ⟨500, [], RespBody.failure e.message⟩

/-- Lines 138-162, `POST /process-download`: like `/process` but the
success response is the raw document with download headers. -/
def processDownloadRoute (juiceF : JSValue → Except String String)
    (load : String → Doc) (renderHtml : Doc → String) (uuids : Nat → String)
    (body : JSValue) (xFilename : Option String) : Response :=
  let filename := filenameOf xFilename
  if truthy body = false then
    ⟨400, [], RespBody.noContentError⟩
  else
    match processHtml juiceF load renderHtml uuids body with
    | Except.ok html =>
      ⟨200, [("Content-Type", "text/html; charset=UTF-8"),
        ("Content-Disposition", "attachment; filename=" ++ "\"" ++ filename ++ "\"")],
        RespBody.htmlDoc html⟩
    | Except.error e => ⟨500, [], RespBody.failure e.message⟩

/-- Lines 69-85, `GET /`: transform the local template when it exists
(`readTemplate` is the opaque file read; `none` models ENOENT). A
processing error is not ENOENT, so it falls to the error middleware. -/
def rootRoute (juiceF : JSValue → Except String String)
    (load : String → Doc) (renderHtml : Doc → String) (uuids : Nat → String)
    (readTemplate : Option String) : Response :=
  match readTemplate with
  | none => ⟨404, [], RespBody.templateNotFound
      "Use POST /process endpoint to process HTML content via API"⟩
  | some content =>
    match processHtml juiceF load renderHtml uuids (JSValue.str content) with
    | Except.ok html => ⟨200, [("Content-Type", "text/html")], RespBody.htmlDoc html⟩
    | Except.error _ => ⟨500, [], RespBody.internalError⟩

/-- Lines 88-108, `GET /download`. -/
def downloadRoute (juiceF : JSValue → Except String String)
    (load : String → Doc) (renderHtml : Doc → String) (uuids : Nat → String)
    (readTemplate : Option String) : Response :=
  match readTemplate with
  | none => ⟨404, [], RespBody.templateNotFound
      "Use POST /process-download endpoint to process HTML content via API"⟩
  | some content =>
    match processHtml juiceF load renderHtml uuids (JSValue.str content) with
    | Except.ok html =>
      ⟨200, [("Content-Type", "text/html; charset=UTF-8"),
        ("Content-Disposition", "attachment; filename=" ++ "\"" ++ "newsletter.html" ++ "\"")],
        RespBody.htmlDoc html⟩
    | Except.error _ => ⟨500, [], RespBody.internalError⟩

structure Request where
  method : String
  path : String
  body : JSValue
  xFilename : Option String
  deriving DecidableEq

/-- The three headers set by the CORS middleware (lines 22-24). -/
def corsHeaders : List (String × String) :=
  [("Access-Control-Allow-Origin", "*"),
   ("Access-Control-Allow-Methods", "GET, POST, PUT, DELETE, OPTIONS"),
   ("Access-Control-Allow-Headers",
     "Origin, X-Requested-With, Content-Type, Accept, Authorization, X-Filename")]

/-- Lines 21-30, the CORS middleware wrapped around an arbitrary router:
set the three headers on every response; an `OPTIONS` request is answered
with status 200 immediately (`res.sendStatus(200)`), `next()` is not
called, so no route below runs. -/
def handleWith (route : Request → Response) (req : Request) : Response :=
  if req.method = "OPTIONS" then ⟨200, corsHeaders, RespBody.empty⟩
  else
    let r := route req
    ⟨r.status, corsHeaders ++ r.headers, r.body⟩

/-- The app's router (the four registered routes; anything else falls
through to Express's default 404). -/
def dispatch (juiceF : JSValue → Except String String)
    (load : String → Doc) (renderHtml : Doc → String) (uuids : Nat → String)
    (readTemplate : Option String) (req : Request) : Response :=
  if req.method = "POST" ∧ req.path = "/process" then
    processRoute juiceF load renderHtml uuids req.body req.xFilename
  else if req.method = "POST" ∧ req.path = "/process-download" then
    processDownloadRoute juiceF load renderHtml uuids req.body req.xFilename
  else if req.method = "GET" ∧ req.path = "/" then
    rootRoute juiceF load renderHtml uuids readTemplate
  else if req.method = "GET" ∧ req.path = "/download" then
    downloadRoute juiceF load renderHtml uuids readTemplate
  else ⟨404, [], RespBody.empty⟩

/-- The whole app: CORS middleware in front of the router. -/
def handleApp (juiceF : JSValue → Except String String)
    (load : String → Doc) (renderHtml : Doc → String) (uuids : Nat → String)
    (readTemplate : Option String) (req : Request) : Response :=
  handleWith (dispatch juiceF load renderHtml uuids readTemplate) req

/-! ### Claim C4 -/

/-- C4: a falsy request body (empty string, null, or missing) makes
`POST /process` answer 400 with the no-content error, and makes the
pipeline itself raise the InvalidInput error — for every choice of the
parsing and inlining capabilities, i.e. before any parsing is attempted;
every truthy body is handed to the pipeline, whose outcome alone determines
the response. -/
theorem C4_empty_input_rejected (juiceF : JSValue → Except String String)
    (load : String → Doc) (renderHtml : Doc → String) (uuids : Nat → String)
    (xF : Option String) :
    (∀ body, truthy body = false →
      processHtml juiceF load renderHtml uuids body
          = Except.error PError.invalidInput ∧
      processRoute juiceF load renderHtml uuids body xF
          = ⟨400, [], RespBody.noContentError⟩) ∧
    (∀ body, truthy body = true →
      (∃ h, processHtml juiceF load renderHtml uuids body = Except.ok h ∧
        processRoute juiceF load renderHtml uuids body xF
          = ⟨200, [], RespBody.success h (filenameOf xF)⟩) ∨
      (∃ e, processHtml juiceF load renderHtml uuids body = Except.error e ∧
        processRoute juiceF load renderHtml uuids body xF
          = ⟨500, [], RespBody.failure e.message⟩)) := by
  constructor
  · intro body hb
    exact ⟨by simp [processHtml, hb], by simp [processRoute, hb]⟩
  · intro body hb
    cases hp : processHtml juiceF load renderHtml uuids body with
    | ok h => exact Or.inl ⟨h, rfl, by simp [processRoute, hb, hp]⟩
    | error e => exact Or.inr ⟨e, rfl, by simp [processRoute, hb, hp]⟩

/-- Witness for C4 at the empty-string body. -/
theorem C4_empty_input_rejected_witness :
    truthy (JSValue.str "") = false ∧
    processHtml (fun _ => Except.ok "") (fun _ => ⟨[], []⟩) (fun _ => "")
        (fun _ => "u") (JSValue.str "") = Except.error PError.invalidInput ∧
    processRoute (fun _ => Except.ok "") (fun _ => ⟨[], []⟩) (fun _ => "")
        (fun _ => "u") (JSValue.str "") none
      = ⟨400, [], RespBody.noContentError⟩ :=
  ⟨by decide,
    ((C4_empty_input_rejected (fun _ => Except.ok "") (fun _ => ⟨[], []⟩)
      (fun _ => "") (fun _ => "u") none).1 (JSValue.str "") (by decide)).1,
    ((C4_empty_input_rejected (fun _ => Except.ok "") (fun _ => ⟨[], []⟩)
      (fun _ => "") (fun _ => "u") none).1 (JSValue.str "") (by decide)).2⟩

/-! ### Claim C5 -/

/-- C5: when the pipeline fails on a truthy body, both POST routes answer
500 with the failure envelope — success flag false, the short label
`Failed to process HTML`, the diagnostic message — and that envelope is
not a document-bearing body: it differs from every success envelope and
from every raw-HTML body, so a response carries a complete document or an
error, never both. -/
theorem C5_failure_envelope (juiceF : JSValue → Except String String)
    (load : String → Doc) (renderHtml : Doc → String) (uuids : Nat → String)
    (body : JSValue) (xF : Option String) (e : PError)
    (hb : truthy body = true)
    (hfail : processHtml juiceF load renderHtml uuids body = Except.error e) :
    processRoute juiceF load renderHtml uuids body xF
        = ⟨500, [], RespBody.failure e.message⟩ ∧
    processDownloadRoute juiceF load renderHtml uuids body xF
        = ⟨500, [], RespBody.failure e.message⟩ ∧
    (∀ h f, RespBody.failure e.message ≠ RespBody.success h f) ∧
    (∀ h, RespBody.failure e.message ≠ RespBody.htmlDoc h) := by
  refine ⟨by simp [processRoute, hb, hfail],
    by simp [processDownloadRoute, hb, hfail], ?_, ?_⟩
  · intro h f hc
    exact RespBody.noConfusion hc
  · intro h hc
    exact RespBody.noConfusion hc

/-- Witness for C5: an inlining engine that throws on malformed CSS. -/
theorem C5_failure_envelope_witness :
    truthy (JSValue.str "bad") = true ∧
    processHtml (fun _ => Except.error "Malformed CSS") (fun _ => ⟨[], []⟩)
        (fun _ => "") (fun _ => "u") (JSValue.str "bad")
      = Except.error (PError.processingFailure "Malformed CSS") ∧
    processRoute (fun _ => Except.error "Malformed CSS") (fun _ => ⟨[], []⟩)
        (fun _ => "") (fun _ => "u") (JSValue.str "bad") none
      = ⟨500, [], RespBody.failure
          (PError.processingFailure "Malformed CSS").message⟩ :=
  ⟨by decide, rfl,
    (C5_failure_envelope (fun _ => Except.error "Malformed CSS")
      (fun _ => ⟨[], []⟩) (fun _ => "") (fun _ => "u") (JSValue.str "bad") none
      (PError.processingFailure "Malformed CSS") (by decide) rfl).1⟩

/-! ### Claim C7 -/

/-- C7: every response produced through the CORS middleware carries the
`Access-Control-Allow-Origin: *` header, the five allowed methods, and an
allowed-headers value that includes `X-Filename`; an OPTIONS request is
answered with status 200 and an empty body by the middleware itself,
identically for every router, i.e. no route handler runs. -/
theorem C7_cors_and_options (route : Request → Response) (req : Request) :
    (("Access-Control-Allow-Origin", "*") ∈ (handleWith route req).headers ∧
     ("Access-Control-Allow-Methods", "GET, POST, PUT, DELETE, OPTIONS")
        ∈ (handleWith route req).headers ∧
     ∃ hs, ("Access-Control-Allow-Headers", hs) ∈ (handleWith route req).headers ∧
       ∃ rest, hs = rest ++ "X-Filename") ∧
    (req.method = "OPTIONS" →
      (handleWith route req).status = 200 ∧
      (handleWith route req).body = RespBody.empty ∧
      ∀ route2, handleWith route2 req = handleWith route req) := by
  have hsplit : ("Origin, X-Requested-With, Content-Type, Accept, Authorization, X-Filename" : String)
      = "Origin, X-Requested-With, Content-Type, Accept, Authorization, " ++ "X-Filename" := by
    decide
  unfold handleWith
  by_cases hm : req.method = "OPTIONS"
  · rw [if_pos hm]
    refine ⟨⟨by simp [corsHeaders], by simp [corsHeaders], ?_⟩, fun _ => ⟨rfl, rfl, ?_⟩⟩
    · exact ⟨_, by simp [corsHeaders], _, hsplit⟩
    · intro route2
      rw [if_pos hm]
  · rw [if_neg hm]
    refine ⟨⟨by simp [corsHeaders], by simp [corsHeaders], ?_⟩, fun hc => absurd hc hm⟩
    exact ⟨_, by simp [corsHeaders], _, hsplit⟩

/-- Witness for C7 at a concrete OPTIONS request. -/
theorem C7_cors_and_options_witness :
    (⟨"OPTIONS", "/process", JSValue.obj, none⟩ : Request).method = "OPTIONS" ∧
    (handleWith (fun _ => ⟨404, [], RespBody.empty⟩)
        ⟨"OPTIONS", "/process", JSValue.obj, none⟩).status = 200 ∧
    (handleWith (fun _ => ⟨404, [], RespBody.empty⟩)
        ⟨"OPTIONS", "/process", JSValue.obj, none⟩).body = RespBody.empty :=
  ⟨rfl,
    ((C7_cors_and_options (fun _ => ⟨404, [], RespBody.empty⟩)
      ⟨"OPTIONS", "/process", JSValue.obj, none⟩).2 rfl).1,
    ((C7_cors_and_options (fun _ => ⟨404, [], RespBody.empty⟩)
      ⟨"OPTIONS", "/process", JSValue.obj, none⟩).2 rfl).2.1⟩

/-! ### Claim C8 -/

/-- C8: the pipeline is deterministic modulo its fresh-identifier source:
two invocations drawing the same sequence of generator values produce the
same output for every input; the embedding of the transform is a pure
function of its arguments (no filesystem or network capability occurs in
it). -/
theorem C8_deterministic (juiceF : JSValue → Except String String)
    (load : String → Doc) (renderHtml : Doc → String) (body : JSValue)
    (u1 u2 : Nat → String) (h : ∀ n, u1 n = u2 n) :
    processHtml juiceF load renderHtml u1 body
      = processHtml juiceF load renderHtml u2 body := by
  have he : u1 = u2 := funext h
  rw [he]

/-- Witness for C8 with two syntactically distinct but equal uuid sources. -/
theorem C8_deterministic_witness :
    (∀ n : Nat, (fun _ : Nat => "u" ++ "") n = (fun _ : Nat => "u") n) ∧
    processHtml (fun _ => Except.ok "<p>") (fun _ => ⟨[], [[("id", "i1")]]⟩)
        (fun d => String.join (docIds d.elements)) (fun _ : Nat => "u" ++ "")
        (JSValue.str "<p>")
      = processHtml (fun _ => Except.ok "<p>") (fun _ => ⟨[], [[("id", "i1")]]⟩)
        (fun d => String.join (docIds d.elements)) (fun _ : Nat => "u")
        (JSValue.str "<p>") :=
  ⟨by intro n; show "u" ++ "" = "u"; decide,
    C8_deterministic (fun _ => Except.ok "<p>") (fun _ => ⟨[], [[("id", "i1")]]⟩)
      (fun d => String.join (docIds d.elements)) (JSValue.str "<p>")
      (fun _ : Nat => "u" ++ "") (fun _ : Nat => "u")
      (by intro n; show "u" ++ "" = "u"; decide)⟩

/-! ### Claim C10 -/

/-- C10: a truthy non-string body (for example a parsed JSON object) passes
the emptiness checks of the route and of the pipeline: the route never
answers 400 for it, the pipeline hands it to the inlining engine, and an
engine failure surfaces as the 500 failure envelope. -/
theorem C10_truthy_nonstring_not_rejected (juiceF : JSValue → Except String String)
    (load : String → Doc) (renderHtml : Doc → String) (uuids : Nat → String)
    (xF : Option String) (body : JSValue)
    (hns : ∀ s, body ≠ JSValue.str s) (hb : truthy body = true) :
    (processRoute juiceF load renderHtml uuids body xF).status ≠ 400 ∧
    (processDownloadRoute juiceF load renderHtml uuids body xF).status ≠ 400 ∧
    processHtml juiceF load renderHtml uuids body
      = (match juiceF body with
         | Except.error m => Except.error (PError.processingFailure m)
         | Except.ok html =>
            Except.ok (renderHtml ⟨(load html).styles,
              remapIds uuids (load html).elements⟩)) ∧
    (∀ m, juiceF body = Except.error m →
      processRoute juiceF load renderHtml uuids body xF
        = ⟨500, [], RespBody.failure m⟩) := by
  refine ⟨?_, ?_, ?_, ?_⟩
  · unfold processRoute
    rw [if_neg (by simp [hb])]
    cases hp : processHtml juiceF load renderHtml uuids body <;> simp
  · unfold processDownloadRoute
    rw [if_neg (by simp [hb])]
    cases hp : processHtml juiceF load renderHtml uuids body <;> simp
  · unfold processHtml
    rw [if_neg (by simp [hb])]
  · intro m hm
    have hp : processHtml juiceF load renderHtml uuids body
        = Except.error (PError.processingFailure m) := by
      unfold processHtml
      rw [if_neg (by simp [hb]), hm]
    simp [processRoute, hb, hp, PError.message]

/-- Witness for C10 at the opaque JSON-object body. -/
theorem C10_truthy_nonstring_not_rejected_witness :
    (∀ s, JSValue.obj ≠ JSValue.str s) ∧ truthy JSValue.obj = true ∧
    (processRoute (fun _ => Except.error "not a string") (fun _ => ⟨[], []⟩)
        (fun _ => "") (fun _ => "u") JSValue.obj none).status ≠ 400 ∧
    processRoute (fun _ => Except.error "not a string") (fun _ => ⟨[], []⟩)
        (fun _ => "") (fun _ => "u") JSValue.obj none
      = ⟨500, [], RespBody.failure "not a string"⟩ :=
  ⟨fun s h => JSValue.noConfusion h, by decide,
    (C10_truthy_nonstring_not_rejected (fun _ => Except.error "not a string")
      (fun _ => ⟨[], []⟩) (fun _ => "") (fun _ => "u") none JSValue.obj
      (fun s h => JSValue.noConfusion h) (by decide)).1,
    (C10_truthy_nonstring_not_rejected (fun _ => Except.error "not a string")
      (fun _ => ⟨[], []⟩) (fun _ => "") (fun _ => "u") none JSValue.obj
      (fun s h => JSValue.noConfusion h) (by decide)).2.2.2 "not a string" rfl⟩

/-! ### Claim C3 -/

/-- C3: if the inlining engine succeeds and honours its documented contract
for the options used — the residual stylesheet blocks are exactly the
media-conditional ones, matched elements carrying their computed inline
`style` attribute — then the pipeline output keeps exactly the
media-conditional blocks, has no stylesheet block at all when the input had
only unconditional rules, and the id-remap stage leaves every computed
`style` attribute unchanged. -/
theorem C3_styles_inlined_blocks_removed (inliner : Doc → Except String Doc)
    (uuids : Nat → String) (doc d : Doc)
    (hrun : inliner doc = Except.ok d)
    (hstyles : d.styles = doc.styles.filter (fun b => b.mediaConditional)) :
    ∃ out, processHtmlDom inliner uuids doc = Except.ok out ∧
      out.styles = doc.styles.filter (fun b => b.mediaConditional) ∧
      ((∀ b ∈ doc.styles, b.mediaConditional = false) → out.styles = []) ∧
      (∀ j, attrAt out.elements j "style" = attrAt d.elements j "style") := by
  refine ⟨⟨d.styles, remapIds uuids d.elements⟩, by simp [processHtmlDom, hrun],
    hstyles, ?_, ?_⟩
  · intro hall
    show d.styles = []
    rw [hstyles]
    exact List.filter_eq_nil_iff.mpr (fun b hbm => by simp [hall b hbm])
  · intro j
    exact attrAt_foldSteps_other uuids (autoIdxs d.elements) 0 d.elements j
      "style" (by decide) (by decide) (by decide)

/-- Witness for C3: one unconditional block, inlined and dropped. -/
theorem C3_styles_inlined_blocks_removed_witness :
    (([] : List StyleBlock)
        = ([⟨false, "div color red"⟩] : List StyleBlock).filter
            (fun b => b.mediaConditional)) ∧
    (∃ out, processHtmlDom
        (fun dd : Doc => (Except.ok
          ⟨dd.styles.filter (fun b => b.mediaConditional), dd.elements⟩
           : Except String Doc))
        (fun _ => "u")
        ⟨[⟨false, "div color red"⟩], [[("id", "i1"), ("style", "color red")]]⟩
        = Except.ok out ∧
      out.styles = (⟨[⟨false, "div color red"⟩],
          [[("id", "i1"), ("style", "color red")]]⟩ : Doc).styles.filter
            (fun b => b.mediaConditional) ∧
      ((∀ b ∈ (⟨[⟨false, "div color red"⟩],
          [[("id", "i1"), ("style", "color red")]]⟩ : Doc).styles,
          b.mediaConditional = false) → out.styles = []) ∧
      (∀ j, attrAt out.elements j "style"
        = attrAt (⟨[], [[("id", "i1"), ("style", "color red")]]⟩ : Doc).elements
            j "style")) :=
  ⟨by decide,
    C3_styles_inlined_blocks_removed
      (fun dd : Doc => (Except.ok
        ⟨dd.styles.filter (fun b => b.mediaConditional), dd.elements⟩
         : Except String Doc))
      (fun _ => "u")
      ⟨[⟨false, "div color red"⟩], [[("id", "i1"), ("style", "color red")]]⟩
      ⟨[], [[("id", "i1"), ("style", "color red")]]⟩ rfl (by decide)⟩

/-! ### Infrastructure for the reference-rewriting claims

`getAttr_rewriteRef_compute` characterises what one inner-loop pass does to
the two reference attributes as a function of the element's current values;
`findPos` describes which snapshot position a reference value points at. -/

theorem truthyAttr_some_iff (s : String) : truthyAttr (some s) = true ↔ s ≠ "" := by
  simp [truthyAttr]

theorem ne_empty_of_data_cons {s : String} {c : Char} {l : List Char}
    (h : s.data = c :: l) : s ≠ "" := by
  intro he
  subst he
  exact List.noConfusion ((by rfl : ("" : String).data = []) ▸ h)

theorem hash_append_ne_empty (s : String) : "#" ++ s ≠ "" := by
  apply ne_empty_of_data_cons (c := '#') (l := s.data)
  rw [String.data_append]
  rfl

theorem idValueAuto_data {v : String} (h : idValueAuto v = true) :
    ∃ l, v.data = 'i' :: l := by
  unfold idValueAuto at h
  cases hd : v.data with
  | nil => rw [hd] at h; exact Bool.noConfusion h
  | cons c l =>
    rw [hd] at h
    have hc : c = 'i' := by simpa using h
    subst hc
    exact ⟨l, rfl⟩

theorem idValueAuto_ne_empty2 {v : String} (h : idValueAuto v = true) : v ≠ "" := by
  obtain ⟨l, hl⟩ := idValueAuto_data h
  exact ne_empty_of_data_cons hl

theorem getAttr_rewriteRef_compute (o n : String) (ref : Element) :
    (getAttr (rewriteRef o n ref) "for"
      = if (getAttr ref "href" = some ("#" ++ o) ∨ getAttr ref "for" = some o)
          ∧ truthyAttr (getAttr ref "for") = true
        then some n else getAttr ref "for") ∧
    (getAttr (rewriteRef o n ref) "href"
      = if (getAttr ref "href" = some ("#" ++ o) ∨ getAttr ref "for" = some o)
          ∧ truthyAttr (getAttr ref "href") = true
        then some ("#" ++ n) else getAttr ref "href") := by
  have hforH : getAttr (rewriteHref n ref) "for" = getAttr ref "for" :=
    getAttr_rewriteHref _ _ _ (by decide)
  have hhrefH : getAttr (rewriteHref n ref) "href"
      = if truthyAttr (getAttr ref "href") = true
        then some ("#" ++ n) else getAttr ref "href" := by
    unfold rewriteHref
    split_ifs
    · exact getAttr_setAttr_self _ _ _
    · rfl
  have hforF : ∀ r2 : Element, getAttr (rewriteFor n r2) "for"
      = if truthyAttr (getAttr r2 "for") = true
        then some n else getAttr r2 "for" := by
    intro r2
    unfold rewriteFor
    split_ifs
    · exact getAttr_setAttr_self _ _ _
    · rfl
  have hhrefF : ∀ r2 : Element, getAttr (rewriteFor n r2) "href" = getAttr r2 "href" :=
    fun r2 => getAttr_rewriteFor _ _ _ (by decide)
  unfold rewriteRef
  by_cases hsel : getAttr ref "href" = some ("#" ++ o) ∨ getAttr ref "for" = some o
  · rw [if_pos hsel]
    rw [hforF, hhrefF, hforH, hhrefH]
    constructor
    · by_cases hfo : truthyAttr (getAttr ref "for") = true
      · rw [if_pos hfo, if_pos ⟨hsel, hfo⟩]
      · rw [if_neg hfo, if_neg (fun hc => hfo hc.2)]
    · by_cases hhr : truthyAttr (getAttr ref "href") = true
      · rw [if_pos hhr, if_pos ⟨hsel, hhr⟩]
      · rw [if_neg hhr, if_neg (fun hc => hhr hc.2)]
  · rw [if_neg hsel, if_neg (fun hc => hsel hc.1), if_neg (fun hc => hsel hc.1)]
    exact ⟨rfl, rfl⟩

theorem remapStep_eq {o : String} (n : String) (idx : Nat) (els : List Element)
    (hido : attrAt els idx "id" = some o) :
    remapStep n idx els
      = (els.set idx (setAttr (els.getD idx []) "id" n)).map (rewriteRef o n) := by
  unfold remapStep
  rw [show getAttr (els.getD idx []) "id" = some o from hido]

/-- The element seen by the inner loop at position `j` after the id of the
element at `idx` was replaced: its two reference attributes are those of
the current document. -/
theorem setThenView {n : String} (idx : Nat) (els : List Element) (j : Nat)
    {el : Element} (hj : els[j]? = some el) (hlt : idx < els.length) :
    ∃ el2, (els.set idx (setAttr (els.getD idx []) "id" n))[j]? = some el2 ∧
      getAttr el2 "for" = getAttr el "for" ∧
      getAttr el2 "href" = getAttr el "href" := by
  by_cases hji : j = idx
  · subst hji
    have hel : els.getD j [] = el := getD_of_getElem? hj
    refine ⟨setAttr el "id" n, ?_, ?_, ?_⟩
    · rw [List.getElem?_set_self (by simpa using hlt), hel]
    · exact getAttr_setAttr_ne _ _ _ _ (by decide)
    · exact getAttr_setAttr_ne _ _ _ _ (by decide)
  · exact ⟨el, by rw [List.getElem?_set_ne (Ne.symm hji), hj], rfl, rfl⟩

/-- What one outer-loop step does to a `for` attribute anywhere in the
document, in terms of the current values. -/
theorem attrAt_remapStep_for (o n : String) (idx : Nat) (els : List Element)
    (hido : attrAt els idx "id" = some o) (j : Nat) :
    attrAt (remapStep n idx els) j "for"
      = if (attrAt els j "href" = some ("#" ++ o) ∨ attrAt els j "for" = some o)
          ∧ truthyAttr (attrAt els j "for") = true
        then some n else attrAt els j "for" := by
  have hlt : idx < els.length := lt_length_of_attrAt hido
  rw [remapStep_eq n idx els hido]
  cases hj : els[j]? with
  | none =>
    have hlen : els.length ≤ j := List.getElem?_eq_none_iff.mp hj
    have hj2 : ((els.set idx (setAttr (els.getD idx []) "id" n)).map
        (rewriteRef o n))[j]? = none := by
      apply List.getElem?_eq_none
      simpa using hlen
    rw [attrAt_of_getElem?_none hj2, attrAt_of_getElem?_none hj "href",
      attrAt_of_getElem?_none hj "for"]
    rw [if_neg]
    rintro ⟨-, hc⟩
    exact Bool.noConfusion hc
  | some el =>
    obtain ⟨el2, hg2, hf2, hh2⟩ := setThenView (n := n) idx els j hj hlt
    have hj2 : ((els.set idx (setAttr (els.getD idx []) "id" n)).map
        (rewriteRef o n))[j]? = some (rewriteRef o n el2) := by
      rw [List.getElem?_map, hg2]
      rfl
    rw [attrAt_of_getElem? hj2, attrAt_of_getElem? hj "href",
      attrAt_of_getElem? hj "for"]
    have hc := (getAttr_rewriteRef_compute o n el2).1
    rw [hf2, hh2] at hc
    exact hc

/-- What one outer-loop step does to an `href` attribute anywhere in the
document, in terms of the current values. -/
theorem attrAt_remapStep_href (o n : String) (idx : Nat) (els : List Element)
    (hido : attrAt els idx "id" = some o) (j : Nat) :
    attrAt (remapStep n idx els) j "href"
      = if (attrAt els j "href" = some ("#" ++ o) ∨ attrAt els j "for" = some o)
          ∧ truthyAttr (attrAt els j "href") = true
        then some ("#" ++ n) else attrAt els j "href" := by
  have hlt : idx < els.length := lt_length_of_attrAt hido
  rw [remapStep_eq n idx els hido]
  cases hj : els[j]? with
  | none =>
    have hlen : els.length ≤ j := List.getElem?_eq_none_iff.mp hj
    have hj2 : ((els.set idx (setAttr (els.getD idx []) "id" n)).map
        (rewriteRef o n))[j]? = none := by
      apply List.getElem?_eq_none
      simpa using hlen
    rw [attrAt_of_getElem?_none hj2, attrAt_of_getElem?_none hj "href",
      attrAt_of_getElem?_none hj "for"]
    rw [if_neg]
    rintro ⟨-, hc⟩
    exact Bool.noConfusion hc
  | some el =>
    obtain ⟨el2, hg2, hf2, hh2⟩ := setThenView (n := n) idx els j hj hlt
    have hj2 : ((els.set idx (setAttr (els.getD idx []) "id" n)).map
        (rewriteRef o n))[j]? = some (rewriteRef o n el2) := by
      rw [List.getElem?_map, hg2]
      rfl
    rw [attrAt_of_getElem? hj2, attrAt_of_getElem? hj "href",
      attrAt_of_getElem? hj "for"]
    have hc := (getAttr_rewriteRef_compute o n el2).2
    rw [hf2, hh2] at hc
    exact hc

/-- The position of the first snapshot index satisfying `p`. -/
def findPos (p : Nat → Bool) : List Nat → Option Nat
  | [] => none
  | idx :: rest => if p idx then some 0 else (findPos p rest).map (· + 1)

theorem findPos_spec_some {p : Nat → Bool} {l : List Nat} {k : Nat}
    (h : findPos p l = some k) : ∃ idx, l[k]? = some idx ∧ p idx = true := by
  induction l generalizing k with
  | nil => exact Option.noConfusion h
  | cons i rest ih =>
    rw [findPos] at h
    by_cases hp : p i = true
    · rw [if_pos hp] at h
      injection h with hk
      exact ⟨i, by rw [← hk]; simp, hp⟩
    · rw [if_neg hp] at h
      cases hfr : findPos p rest with
      | none => rw [hfr] at h; exact Option.noConfusion h
      | some k2 =>
        rw [hfr] at h
        injection h with hk
        obtain ⟨idx, hg, hpi⟩ := ih hfr
        exact ⟨idx, by rw [← hk]; simpa using hg, hpi⟩

theorem findPos_spec_none {p : Nat → Bool} {l : List Nat}
    (h : findPos p l = none) :
    ∀ (k idx : Nat), l[k]? = some idx → p idx = false := by
  induction l with
  | nil => intro k idx hg; rw [List.getElem?_nil] at hg; exact Option.noConfusion hg
  | cons i rest ih =>
    intro k idx hg
    rw [findPos] at h
    by_cases hp : p i = true
    · rw [if_pos hp] at h; exact Option.noConfusion h
    · rw [if_neg hp] at h
      cases k with
      | zero =>
        have : i = idx := by simpa using hg
        subst this
        exact Bool.of_not_eq_true hp
      | succ k2 =>
        have hg2 : rest[k2]? = some idx := by simpa using hg
        cases hfr : findPos p rest with
        | none => exact ih hfr k2 idx hg2
        | some k3 => rw [hfr] at h; exact Option.noConfusion h

theorem findPos_of_unique {p : Nat → Bool} {l : List Nat} {k : Nat} {idx : Nat}
    (hnd : l.Nodup)
    (huniq : ∀ i1 i2, i1 ∈ l → i2 ∈ l → p i1 = true → p i2 = true → i1 = i2)
    (hg : l[k]? = some idx) (hp : p idx = true) : findPos p l = some k := by
  induction l generalizing k with
  | nil => simp at hg
  | cons i rest ih =>
    rw [findPos]
    by_cases hpi : p i = true
    · rw [if_pos hpi]
      have hmem : idx ∈ i :: rest := by
        obtain ⟨hlt, he⟩ := List.getElem?_eq_some_iff.mp hg
        exact he ▸ List.getElem_mem hlt
      have heq : i = idx :=
        huniq i idx (List.mem_cons_self i rest) hmem hpi hp
      cases k with
      | zero => rfl
      | succ k2 =>
        have hg2 : rest[k2]? = some idx := by simpa using hg
        have : idx ∈ rest := by
          obtain ⟨hlt, he⟩ := List.getElem?_eq_some_iff.mp hg2
          exact he ▸ List.getElem_mem hlt
        exact absurd (heq ▸ this) (List.Nodup.not_mem hnd)
    · rw [if_neg hpi]
      cases k with
      | zero =>
        have : i = idx := by simpa using hg
        exact absurd (this ▸ hp) hpi
      | succ k2 =>
        have hg2 : rest[k2]? = some idx := by simpa using hg
        rw [ih (List.Nodup.of_cons hnd)
          (fun i1 i2 h1 h2 => huniq i1 i2 (List.mem_cons_of_mem _ h1)
            (List.mem_cons_of_mem _ h2)) hg2]
        rfl

theorem findPos_lt_length {p : Nat → Bool} {l : List Nat} {k : Nat}
    (h : findPos p l = some k) : k < l.length := by
  obtain ⟨idx, hg, -⟩ := findPos_spec_some h
  exact (List.getElem?_eq_some_iff.mp hg).1

/-- Unique identifiers: positions carrying the same id value coincide. -/
theorem docIds_nodup_inj {els : List Element} (hnd : (docIds els).Nodup) :
    ∀ j j2 v, attrAt els j "id" = some v → attrAt els j2 "id" = some v → j = j2 := by
  suffices hgen : ∀ (l : List Element), (docIds l).Nodup →
      ∀ i j (v : String), (l[i]?.bind (fun el => getAttr el "id")) = some v →
        (l[j]?.bind (fun el => getAttr el "id")) = some v → i = j by
    intro j j2 v h1 h2
    have hl1 := lt_length_of_attrAt h1
    have hl2 := lt_length_of_attrAt h2
    have hg1 : els[j]? = some (els.getD j []) := by
      rw [List.getD_eq_getElem?_getD]
      cases hx : els[j]? with
      | none => exact absurd (List.getElem?_eq_none_iff.mp hx) (Nat.not_le_of_lt hl1)
      | some el => rfl
    have hg2 : els[j2]? = some (els.getD j2 []) := by
      rw [List.getD_eq_getElem?_getD]
      cases hx : els[j2]? with
      | none => exact absurd (List.getElem?_eq_none_iff.mp hx) (Nat.not_le_of_lt hl2)
      | some el => rfl
    exact hgen els hnd j j2 v (by rw [hg1]; exact h1) (by rw [hg2]; exact h2)
  intro l
  induction l with
  | nil => intro _ i j v h1 _; simp at h1
  | cons a rest ih =>
    intro hnd i j v h1 h2
    cases i with
    | zero =>
      cases j with
      | zero => rfl
      | succ j2 =>
        exfalso
        have ha : getAttr a "id" = some v := by simpa using h1
        have hj : (rest[j2]?.bind (fun el => getAttr el "id")) = some v := by
          simpa using h2
        have hmem : v ∈ docIds rest := by
          cases hx : rest[j2]? with
          | none => rw [hx] at hj; exact Option.noConfusion hj
          | some el =>
            rw [hx] at hj
            refine List.mem_filterMap.mpr ⟨el, ?_, hj⟩
            obtain ⟨hlt, he⟩ := List.getElem?_eq_some_iff.mp hx
            exact he ▸ List.getElem_mem hlt
        have : docIds (a :: rest) = v :: docIds rest := by
          rw [docIds, List.filterMap_cons, ha]
          rfl
        rw [this] at hnd
        exact (List.Nodup.not_mem hnd) hmem
    | succ i2 =>
      cases j with
      | zero =>
        exfalso
        have ha : getAttr a "id" = some v := by simpa using h2
        have hi : (rest[i2]?.bind (fun el => getAttr el "id")) = some v := by
          simpa using h1
        have hmem : v ∈ docIds rest := by
          cases hx : rest[i2]? with
          | none => rw [hx] at hi; exact Option.noConfusion hi
          | some el =>
            rw [hx] at hi
            refine List.mem_filterMap.mpr ⟨el, ?_, hi⟩
            obtain ⟨hlt, he⟩ := List.getElem?_eq_some_iff.mp hx
            exact he ▸ List.getElem_mem hlt
        have : docIds (a :: rest) = v :: docIds rest := by
          rw [docIds, List.filterMap_cons, ha]
          rfl
        rw [this] at hnd
        exact (List.Nodup.not_mem hnd) hmem
      | succ j2 =>
        have hnd2 : (docIds rest).Nodup := by
          rw [docIds, List.filterMap_cons] at hnd
          cases hx : getAttr a "id" with
          | none => rw [hx] at hnd; exact hnd
          | some w => rw [hx] at hnd; exact List.Nodup.of_cons hnd
        have := ih hnd2 i2 j2 v (by simpa using h1) (by simpa using h2)
        rw [this]

/-! ### The state of the document after a prefix of the remap loop

`forVal` and `hrefVal` describe, purely in terms of the original document,
the value a reference attribute holds after the first `t` iterations of the
loop; `inv_holds` proves the description correct by induction on `t`. -/

/-- `for`-reference test: the snapshot position holds original id `v`. -/
def pFor (els0 : List Element) (v : String) : Nat → Bool :=
  fun idx => decide (attrAt els0 idx "id" = some v)

/-- `href`-reference test: the value `v` is `#` followed by the original id
at the snapshot position. -/
def pHref (els0 : List Element) (v : String) : Nat → Bool :=
  fun idx => decide ((attrAt els0 idx "id").map (fun o2 => "#" ++ o2) = some v)

def forVal (els0 : List Element) (idxs : List Nat) (uuids : Nat → String)
    (t : Nat) : Option String → Option String
  | none => none
  | some v =>
    match findPos (pFor els0 v) idxs with
    | some k => if k < t then some ("id-" ++ uuids k) else some v
    | none => some v

def hrefVal (els0 : List Element) (idxs : List Nat) (uuids : Nat → String)
    (t : Nat) : Option String → Option String
  | none => none
  | some v =>
    match findPos (pHref els0 v) idxs with
    | some k => if k < t then some ("#" ++ ("id-" ++ uuids k)) else some v
    | none => some v

theorem forVal_some {els0 : List Element} {idxs : List Nat} {uuids : Nat → String}
    {t : Nat} {v : String} {k : Nat} (hfp : findPos (pFor els0 v) idxs = some k) :
    forVal els0 idxs uuids t (some v)
      = if k < t then some ("id-" ++ uuids k) else some v := by
  show (match findPos (pFor els0 v) idxs with
    | some k2 => if k2 < t then some ("id-" ++ uuids k2) else some v
    | none => some v) = _
  rw [hfp]

theorem forVal_noneFind {els0 : List Element} {idxs : List Nat} {uuids : Nat → String}
    {t : Nat} {v : String} (hfp : findPos (pFor els0 v) idxs = none) :
    forVal els0 idxs uuids t (some v) = some v := by
  show (match findPos (pFor els0 v) idxs with
    | some k2 => if k2 < t then some ("id-" ++ uuids k2) else some v
    | none => some v) = _
  rw [hfp]

theorem hrefVal_some {els0 : List Element} {idxs : List Nat} {uuids : Nat → String}
    {t : Nat} {v : String} {k : Nat} (hfp : findPos (pHref els0 v) idxs = some k) :
    hrefVal els0 idxs uuids t (some v)
      = if k < t then some ("#" ++ ("id-" ++ uuids k)) else some v := by
  show (match findPos (pHref els0 v) idxs with
    | some k2 => if k2 < t then some ("#" ++ ("id-" ++ uuids k2)) else some v
    | none => some v) = _
  rw [hfp]

theorem hrefVal_noneFind {els0 : List Element} {idxs : List Nat} {uuids : Nat → String}
    {t : Nat} {v : String} (hfp : findPos (pHref els0 v) idxs = none) :
    hrefVal els0 idxs uuids t (some v) = some v := by
  show (match findPos (pHref els0 v) idxs with
    | some k2 => if k2 < t then some ("#" ++ ("id-" ++ uuids k2)) else some v
    | none => some v) = _
  rw [hfp]

theorem forVal_empty {els0 : List Element} {idxs : List Nat} {uuids : Nat → String}
    {t : Nat}
    (hb : ∀ (k idx : Nat), idxs[k]? = some idx →
      ∃ o, attrAt els0 idx "id" = some o ∧ idValueAuto o = true) :
    forVal els0 idxs uuids t (some "") = some "" := by
  cases hfp : findPos (pFor els0 "") idxs with
  | some k =>
    exfalso
    obtain ⟨idx, hg, hp⟩ := findPos_spec_some hfp
    have hp2 : attrAt els0 idx "id" = some "" := of_decide_eq_true hp
    obtain ⟨o, ho, hpat⟩ := hb k idx hg
    rw [ho] at hp2
    exact idValueAuto_ne_empty2 hpat (Option.some.inj hp2)
  | none => exact forVal_noneFind hfp

theorem hrefVal_empty {els0 : List Element} {idxs : List Nat} {uuids : Nat → String}
    {t : Nat} : hrefVal els0 idxs uuids t (some "") = some "" := by
  cases hfp : findPos (pHref els0 "") idxs with
  | some k =>
    exfalso
    obtain ⟨idx, hg, hp⟩ := findPos_spec_some hfp
    have hp2 : (attrAt els0 idx "id").map (fun o2 => "#" ++ o2) = some "" :=
      of_decide_eq_true hp
    cases hx : attrAt els0 idx "id" with
    | none => rw [hx] at hp2; exact Option.noConfusion hp2
    | some o2 =>
      rw [hx] at hp2
      exact hash_append_ne_empty o2 (Option.some.inj hp2)
  | none => exact hrefVal_noneFind hfp

/-- The document state after the first `t` loop iterations. -/
def InvAt (els0 : List Element) (idxs : List Nat) (uuids : Nat → String)
    (t : Nat) (cur : List Element) : Prop :=
  (∀ (t2 idx : Nat), idxs[t2]? = some idx →
    attrAt cur idx "id"
      = if t2 < t then some ("id-" ++ uuids t2) else attrAt els0 idx "id") ∧
  (∀ j, j ∉ idxs → attrAt cur j "id" = attrAt els0 j "id") ∧
  (∀ j, attrAt cur j "for" = forVal els0 idxs uuids t (attrAt els0 j "for")) ∧
  (∀ j, attrAt cur j "href" = hrefVal els0 idxs uuids t (attrAt els0 j "href"))

theorem foldSteps_append (uuids : Nat → String) (l1 l2 : List Nat) (k : Nat)
    (els : List Element) :
    foldSteps uuids k (l1 ++ l2) els
      = foldSteps uuids (k + l1.length) l2 (foldSteps uuids k l1 els) := by
  induction l1 generalizing k els with
  | nil => simp [foldSteps]
  | cons i rest ih =>
    show foldSteps uuids (k + 1) (rest ++ l2) (remapStep ("id-" ++ uuids k) i els) = _
    rw [ih]
    have h1 : k + 1 + rest.length = k + (i :: rest).length := by
      simp [List.length_cons]
      omega
    rw [h1]
    rfl

/-- The loop invariant: after `t` iterations of the `.each` loop on a
document with unique identifiers, where no element carries both reference
attributes non-trivially and the drawn identifiers are fresh, every
attribute of the current document is described by `InvAt`. -/
theorem inv_holds (els0 : List Element) (idxs : List Nat) (uuids : Nat → String)
    (hnd : idxs.Nodup)
    (hb : ∀ (k idx : Nat), idxs[k]? = some idx →
      ∃ o, attrAt els0 idx "id" = some o ∧ idValueAuto o = true)
    (H1 : ∀ j j2 v, attrAt els0 j "id" = some v →
      attrAt els0 j2 "id" = some v → j = j2)
    (H2 : ∀ j, ¬(truthyAttr (attrAt els0 j "href") = true
      ∧ truthyAttr (attrAt els0 j "for") = true))
    (H3 : ∀ k, k < idxs.length → ("id-" ++ uuids k) ∉ docIds els0) :
    ∀ t, InvAt els0 idxs uuids t (foldSteps uuids 0 (idxs.take t) els0) := by
  intro t
  induction t with
  | zero =>
    rw [List.take_zero]
    refine ⟨?_, fun j _ => rfl, ?_, ?_⟩
    · intro t2 idx hg
      rw [if_neg (Nat.not_lt_zero t2)]
      rfl
    · intro j
      show attrAt els0 j "for" = forVal els0 idxs uuids 0 (attrAt els0 j "for")
      cases hof : attrAt els0 j "for" with
      | none => rfl
      | some v =>
        cases hfp : findPos (pFor els0 v) idxs with
        | some k => rw [forVal_some hfp, if_neg (Nat.not_lt_zero k)]
        | none => rw [forVal_noneFind hfp]
    · intro j
      show attrAt els0 j "href" = hrefVal els0 idxs uuids 0 (attrAt els0 j "href")
      cases hoh : attrAt els0 j "href" with
      | none => rfl
      | some v =>
        cases hfp : findPos (pHref els0 v) idxs with
        | some k => rw [hrefVal_some hfp, if_neg (Nat.not_lt_zero k)]
        | none => rw [hrefVal_noneFind hfp]
  | succ t ih =>
    obtain ⟨IH1, IH2, IHf, IHh⟩ := ih
    by_cases hlen : t < idxs.length
    · -- the step actually processes the element at position t of the snapshot
      have hgT : idxs[t]? = some idxs[t] := List.getElem?_eq_getElem hlen
      obtain ⟨oT, hoT, hpT⟩ := hb t idxs[t] hgT
      have hoT_mem : oT ∈ docIds els0 := attrAt_mem_docIds hoT
      have hoT_ne : oT ≠ "" := idValueAuto_ne_empty2 hpT
      have hSsucc : foldSteps uuids 0 (idxs.take (t + 1)) els0
          = remapStep ("id-" ++ uuids t) idxs[t]
              (foldSteps uuids 0 (idxs.take t) els0) := by
        rw [List.take_succ, List.getElem?_eq_getElem hlen]
        show foldSteps uuids 0 (idxs.take t ++ [idxs[t]]) els0 = _
        rw [foldSteps_append]
        have hl : 0 + (idxs.take t).length = t := by
          simp [List.length_take]
          omega
        rw [hl]
        rfl
      rw [hSsucc]
      have hcur_id : attrAt (foldSteps uuids 0 (idxs.take t) els0) idxs[t] "id"
          = some oT := by
        have h4 := IH1 t idxs[t] hgT
        rw [if_neg (show ¬ t < t by omega)] at h4
        rw [h4]
        exact hoT
      refine ⟨?_, ?_, ?_, ?_⟩
      · -- ids
        intro t2 idx2 hg2
        by_cases hi2 : idx2 = idxs[t]
        · have ht2 : t2 = t := by
            apply List.getElem?_inj (List.getElem?_eq_some_iff.mp hg2).1 hnd
            rw [hg2, hi2, hgT]
          subst ht2
          subst hi2
          rw [attrAt_remapStep_id_self _ _ _ hcur_id,
            if_pos (show t2 < t2 + 1 by omega)]
        · rw [attrAt_remapStep_id_ne _ _ _ _ hi2]
          rw [IH1 t2 idx2 hg2]
          have ht2 : t2 ≠ t := by
            intro he
            rw [he, hgT] at hg2
            exact hi2 (Option.some.inj hg2).symm
          by_cases h2 : t2 < t
          · rw [if_pos h2, if_pos (show t2 < t + 1 by omega)]
          · rw [if_neg h2, if_neg (show ¬ t2 < t + 1 by omega)]
      · -- untouched ids
        intro j hj
        have hne : j ≠ idxs[t] := by
          intro he
          exact hj (he ▸ List.getElem_mem hlen)
        rw [attrAt_remapStep_id_ne _ _ _ _ hne, IH2 j hj]
      · -- for attributes
        intro j
        rw [attrAt_remapStep_for oT ("id-" ++ uuids t) idxs[t] _ hcur_id j]
        rw [IHf j, IHh j]
        cases hof : attrAt els0 j "for" with
        | none =>
          rw [if_neg]
          · rfl
          · rintro ⟨-, hc⟩
            exact Bool.noConfusion hc
        | some v =>
          by_cases hv0 : v = ""
          · subst hv0
            rw [forVal_empty hb, forVal_empty (t := t + 1) hb, if_neg]
            rintro ⟨-, hc⟩
            exact Bool.noConfusion hc
          · have hhref_ne : hrefVal els0 idxs uuids t (attrAt els0 j "href")
                ≠ some ("#" ++ oT) := by
              have hforTruthy : truthyAttr (attrAt els0 j "for") = true := by
                rw [hof]
                exact (truthyAttr_some_iff v).mpr hv0
              have hhrefFalsy : ¬ truthyAttr (attrAt els0 j "href") = true :=
                fun hh => H2 j ⟨hh, hforTruthy⟩
              cases hoh : attrAt els0 j "href" with
              | none => exact fun hc => Option.noConfusion hc
              | some w =>
                rw [hoh] at hhrefFalsy
                have hw0 : w = "" := by
                  by_contra hw
                  exact hhrefFalsy ((truthyAttr_some_iff w).mpr hw)
                subst hw0
                rw [hrefVal_empty]
                intro hc
                exact hash_append_ne_empty oT (Option.some.inj hc).symm
            cases hfp : findPos (pFor els0 v) idxs with
            | some k =>
              obtain ⟨idxk, hgk, hpk⟩ := findPos_spec_some hfp
              have hpk2 : attrAt els0 idxk "id" = some v := of_decide_eq_true hpk
              by_cases hkt : k < t
              · rw [forVal_some hfp, if_pos hkt,
                  forVal_some (t := t + 1) hfp,
                  if_pos (show k < t + 1 by omega), if_neg]
                rintro ⟨hor, -⟩
                cases hor with
                | inl hc => exact hhref_ne hc
                | inr hc =>
                  exact H3 k (findPos_lt_length hfp)
                    ((Option.some.inj hc) ▸ hoT_mem)
              · by_cases hkt2 : k = t
                · have hgk2 : idxs[t]? = some idxk := by
                    rw [← hkt2]
                    exact hgk
                  have hik : idxk = idxs[t] := by
                    rw [hgT] at hgk2
                    exact (Option.some.inj hgk2).symm
                  have hvoT : v = oT := by
                    rw [hik, hoT] at hpk2
                    exact (Option.some.inj hpk2).symm
                  rw [forVal_some hfp, if_neg hkt,
                    if_pos (⟨Or.inr (by rw [hvoT]),
                      (truthyAttr_some_iff v).mpr hv0⟩ :
                      _ ∧ truthyAttr (some v) = true),
                    forVal_some (t := t + 1) hfp,
                    if_pos (show k < t + 1 by omega), hkt2]
                · rw [forVal_some hfp, if_neg hkt,
                    forVal_some (t := t + 1) hfp,
                    if_neg (show ¬ k < t + 1 by omega), if_neg]
                  rintro ⟨hor, -⟩
                  cases hor with
                  | inl hc => exact hhref_ne hc
                  | inr hc =>
                    have hvoT : v = oT := Option.some.inj hc
                    have hik : idxk = idxs[t] :=
                      H1 idxk idxs[t] v hpk2 (by rw [hvoT]; exact hoT)
                    have hk_eq : k = t := by
                      apply List.getElem?_inj (findPos_lt_length hfp) hnd
                      rw [hgk, hik, hgT]
                    exact hkt2 hk_eq
            | none =>
              rw [forVal_noneFind hfp, forVal_noneFind (t := t + 1) hfp, if_neg]
              rintro ⟨hor, -⟩
              cases hor with
              | inl hc => exact hhref_ne hc
              | inr hc =>
                have hvoT : v = oT := Option.some.inj hc
                have h5 := findPos_spec_none hfp t idxs[t] hgT
                exact (of_decide_eq_false h5) (by rw [hvoT]; exact hoT)
      · -- href attributes
        intro j
        rw [attrAt_remapStep_href oT ("id-" ++ uuids t) idxs[t] _ hcur_id j]
        rw [IHf j, IHh j]
        cases hoh : attrAt els0 j "href" with
        | none =>
          rw [if_neg]
          · rfl
          · rintro ⟨-, hc⟩
            exact Bool.noConfusion hc
        | some v =>
          by_cases hv0 : v = ""
          · subst hv0
            rw [hrefVal_empty, hrefVal_empty (t := t + 1), if_neg]
            rintro ⟨-, hc⟩
            exact Bool.noConfusion hc
          · have hfor_ne : forVal els0 idxs uuids t (attrAt els0 j "for")
                ≠ some oT := by
              have hhrefTruthy : truthyAttr (attrAt els0 j "href") = true := by
                rw [hoh]
                exact (truthyAttr_some_iff v).mpr hv0
              have hforFalsy : ¬ truthyAttr (attrAt els0 j "for") = true :=
                fun hf => H2 j ⟨hhrefTruthy, hf⟩
              cases hof2 : attrAt els0 j "for" with
              | none => exact fun hc => Option.noConfusion hc
              | some w =>
                rw [hof2] at hforFalsy
                have hw0 : w = "" := by
                  by_contra hw
                  exact hforFalsy ((truthyAttr_some_iff w).mpr hw)
                subst hw0
                rw [forVal_empty hb]
                intro hc
                exact hoT_ne (Option.some.inj hc).symm
            cases hfp : findPos (pHref els0 v) idxs with
            | some k =>
              obtain ⟨idxk, hgk, hpk⟩ := findPos_spec_some hfp
              have hpk2 : (attrAt els0 idxk "id").map (fun o2 => "#" ++ o2)
                  = some v := of_decide_eq_true hpk
              obtain ⟨ok, hok, hvk⟩ : ∃ ok, attrAt els0 idxk "id" = some ok
                  ∧ v = "#" ++ ok := by
                cases hx : attrAt els0 idxk "id" with
                | none => rw [hx] at hpk2; exact Option.noConfusion hpk2
                | some o2 =>
                  rw [hx] at hpk2
                  exact ⟨o2, rfl, (Option.some.inj hpk2).symm⟩
              by_cases hkt : k < t
              · rw [hrefVal_some hfp, if_pos hkt,
                  hrefVal_some (t := t + 1) hfp,
                  if_pos (show k < t + 1 by omega), if_neg]
                rintro ⟨hor, -⟩
                cases hor with
                | inr hc => exact hfor_ne hc
                | inl hc =>
                  have h5 : ("id-" ++ uuids k) = oT :=
                    append_cancel_left_str (Option.some.inj hc)
                  exact H3 k (findPos_lt_length hfp) (h5 ▸ hoT_mem)
              · by_cases hkt2 : k = t
                · have hgk2 : idxs[t]? = some idxk := by
                    rw [← hkt2]
                    exact hgk
                  have hik : idxk = idxs[t] := by
                    rw [hgT] at hgk2
                    exact (Option.some.inj hgk2).symm
                  have hokT : ok = oT := by
                    rw [hik, hoT] at hok
                    exact (Option.some.inj hok).symm
                  have hvoT : v = "#" ++ oT := by rw [hvk, hokT]
                  rw [hrefVal_some hfp, if_neg hkt,
                    if_pos (⟨Or.inl (by rw [hvoT]),
                      (truthyAttr_some_iff v).mpr hv0⟩ :
                      _ ∧ truthyAttr (some v) = true),
                    hrefVal_some (t := t + 1) hfp,
                    if_pos (show k < t + 1 by omega), hkt2]
                · rw [hrefVal_some hfp, if_neg hkt,
                    hrefVal_some (t := t + 1) hfp,
                    if_neg (show ¬ k < t + 1 by omega), if_neg]
                  rintro ⟨hor, -⟩
                  cases hor with
                  | inr hc => exact hfor_ne hc
                  | inl hc =>
                    have hvoT : v = "#" ++ oT := Option.some.inj hc
                    have h5 : "#" ++ ok = "#" ++ oT := by
                      rw [← hvk]
                      exact hvoT
                    have h6 : ok = oT := append_cancel_left_str h5
                    have hik : idxk = idxs[t] :=
                      H1 idxk idxs[t] oT (by rw [← h6]; exact hok) hoT
                    have hk_eq : k = t := by
                      apply List.getElem?_inj (findPos_lt_length hfp) hnd
                      rw [hgk, hik, hgT]
                    exact hkt2 hk_eq
            | none =>
              rw [hrefVal_noneFind hfp, hrefVal_noneFind (t := t + 1) hfp, if_neg]
              rintro ⟨hor, -⟩
              cases hor with
              | inr hc => exact hfor_ne hc
              | inl hc =>
                have hvoT : v = "#" ++ oT := Option.some.inj hc
                have h5 := findPos_spec_none hfp t idxs[t] hgT
                exact (of_decide_eq_false h5) (by rw [hoT, hvoT]; rfl)
    · -- no element is left: the state and the description are both frozen
      have htake : idxs.take (t + 1) = idxs.take t := by
        rw [List.take_of_length_le (show idxs.length ≤ t + 1 by omega),
          List.take_of_length_le (show idxs.length ≤ t by omega)]
      rw [htake]
      refine ⟨?_, IH2, ?_, ?_⟩
      · intro t2 idx hg
        have hlt2 : t2 < idxs.length := (List.getElem?_eq_some_iff.mp hg).1
        rw [IH1 t2 idx hg, if_pos (show t2 < t by omega),
          if_pos (show t2 < t + 1 by omega)]
      · intro j
        rw [IHf j]
        cases hof : attrAt els0 j "for" with
        | none => rfl
        | some v =>
          cases hfp : findPos (pFor els0 v) idxs with
          | some k =>
            have hk := findPos_lt_length hfp
            rw [forVal_some hfp, forVal_some (t := t + 1) hfp,
              if_pos (show k < t by omega), if_pos (show k < t + 1 by omega)]
          | none => rw [forVal_noneFind hfp, forVal_noneFind (t := t + 1) hfp]
      · intro j
        rw [IHh j]
        cases hoh : attrAt els0 j "href" with
        | none => rfl
        | some v =>
          cases hfp : findPos (pHref els0 v) idxs with
          | some k =>
            have hk := findPos_lt_length hfp
            rw [hrefVal_some hfp, hrefVal_some (t := t + 1) hfp,
              if_pos (show k < t by omega), if_pos (show k < t + 1 by omega)]
          | none => rw [hrefVal_noneFind hfp, hrefVal_noneFind (t := t + 1) hfp]

/-! ### Claim C1 -/

/-- Claim C1 as stated, as a predicate on one document: every reference,
by either convention, to the old id of a remapped element ends up pointing
at that element's new identifier. -/
def refsRewrittenClaim (uuids : Nat → String) (els : List Element) : Prop :=
  ∀ (k idx : Nat), (autoIdxs els)[k]? = some idx →
    ∀ oldId, attrAt els idx "id" = some oldId →
      ∀ j, (attrAt els j "for" = some oldId →
          attrAt (remapIds uuids els) j "for"
            = attrAt (remapIds uuids els) idx "id") ∧
        (attrAt els j "href" = some ("#" ++ oldId) →
          ∃ nid, attrAt (remapIds uuids els) idx "id" = some nid ∧
            attrAt (remapIds uuids els) j "href" = some ("#" ++ nid))

/-- C1 is false as stated: in a document with ids `i1` and `i2` and one
element carrying both `href="#i1"` and `for="i2"`, processing `i1` also
overwrites the `for` attribute (line 60 fires because the element was
matched through its `href`), so the reference to `i2` ends up pointing at
`i1`'s replacement instead of `i2`'s. -/
theorem C1_counterexample_contamination :
    ¬ refsRewrittenClaim (fun n => String.mk (List.replicate (n + 1) 'u'))
        [[("id", "i1")], [("id", "i2")], [("href", "#i1"), ("for", "i2")]] := by
  intro h
  have h2 := (h 1 1 (by decide) "i2" (by decide) 2).1 (by decide)
  exact absurd h2 (by decide)

/-- C1 (amended): in a document with unique identifiers, in which no
element carries both a non-empty `href` and a non-empty `for` attribute,
and with fresh generator draws, every remapped element receives
`id-<uuid_k>`, and every `for` attribute equal to its old id and every
`href` attribute equal to `#` plus its old id are rewritten to that same
new identifier. -/
theorem C1_amended_refs_rewritten (els : List Element) (uuids : Nat → String)
    (hnodup : (docIds els).Nodup)
    (honeref : ∀ el ∈ els, ¬(truthyAttr (getAttr el "href") = true
      ∧ truthyAttr (getAttr el "for") = true))
    (hfresh : ∀ k < (autoIdxs els).length, ("id-" ++ uuids k) ∉ docIds els) :
    ∀ (k idx : Nat), (autoIdxs els)[k]? = some idx →
      ∃ oldId, attrAt els idx "id" = some oldId ∧
        attrAt (remapIds uuids els) idx "id" = some ("id-" ++ uuids k) ∧
        (∀ j, attrAt els j "for" = some oldId →
          attrAt (remapIds uuids els) j "for" = some ("id-" ++ uuids k)) ∧
        (∀ j, attrAt els j "href" = some ("#" ++ oldId) →
          attrAt (remapIds uuids els) j "href"
            = some ("#" ++ ("id-" ++ uuids k))) := by
  have H2d : ∀ j, ¬(truthyAttr (attrAt els j "href") = true
      ∧ truthyAttr (attrAt els j "for") = true) := by
    intro j
    by_cases hjl : j < els.length
    · exact honeref (els.getD j []) (getD_mem hjl)
    · rintro ⟨hh, -⟩
      rw [attrAt_of_getElem?_none
        (List.getElem?_eq_none (Nat.le_of_not_lt hjl)) "href"] at hh
      exact Bool.noConfusion hh
  have hRem : remapIds uuids els
      = foldSteps uuids 0 ((autoIdxs els).take (autoIdxs els).length) els := by
    rw [List.take_length]
    rfl
  obtain ⟨hI1, hI2, hIf, hIh⟩ := inv_holds els (autoIdxs els) uuids
    (autoIdxs_nodup els)
    (fun k2 idx2 hg2 => (autoIdxs_getElem?_spec hg2).2)
    (docIds_nodup_inj hnodup) H2d hfresh (autoIdxs els).length
  intro k idx hget
  obtain ⟨hlidx, oldId, hold, hpat⟩ := autoIdxs_getElem?_spec hget
  have hk : k < (autoIdxs els).length := (List.getElem?_eq_some_iff.mp hget).1
  refine ⟨oldId, hold, ?_, ?_, ?_⟩
  · rw [hRem, hI1 k idx hget, if_pos hk]
  · intro j hj
    rw [hRem, hIf j, hj]
    have hfp : findPos (pFor els oldId) (autoIdxs els) = some k := by
      apply findPos_of_unique (autoIdxs_nodup els) ?_ hget
        (decide_eq_true hold)
      intro i1 i2 _ _ hp1 hp2
      exact docIds_nodup_inj hnodup i1 i2 oldId
        (of_decide_eq_true hp1) (of_decide_eq_true hp2)
    rw [forVal_some hfp, if_pos hk]
  · intro j hj
    rw [hRem, hIh j, hj]
    have hfp : findPos (pHref els ("#" ++ oldId)) (autoIdxs els) = some k := by
      apply findPos_of_unique (autoIdxs_nodup els) ?_ hget
        (decide_eq_true (by rw [hold]; rfl))
      intro i1 i2 _ _ hp1 hp2
      have hp1b := of_decide_eq_true hp1
      have hp2b := of_decide_eq_true hp2
      obtain ⟨o1, ho1, hv1⟩ : ∃ o1, attrAt els i1 "id" = some o1
          ∧ "#" ++ o1 = "#" ++ oldId := by
        cases hx : attrAt els i1 "id" with
        | none => rw [hx] at hp1b; exact Option.noConfusion hp1b
        | some o2 => rw [hx] at hp1b; exact ⟨o2, rfl, Option.some.inj hp1b⟩
      obtain ⟨o2, ho2, hv2⟩ : ∃ o2, attrAt els i2 "id" = some o2
          ∧ "#" ++ o2 = "#" ++ oldId := by
        cases hx : attrAt els i2 "id" with
        | none => rw [hx] at hp2b; exact Option.noConfusion hp2b
        | some o3 => rw [hx] at hp2b; exact ⟨o3, rfl, Option.some.inj hp2b⟩
      have h1 : o1 = oldId := append_cancel_left_str hv1
      have h2 : o2 = oldId := append_cancel_left_str hv2
      exact docIds_nodup_inj hnodup i1 i2 oldId (h1 ▸ ho1) (h2 ▸ ho2)
    rw [hrefVal_some hfp, if_pos hk]

/-- Witness for the amended C1: `i1` with one label reference and one
fragment reference, each on its own element. -/
theorem C1_amended_refs_rewritten_witness :
    (docIds [[("id", "i1")], [("for", "i1")], [("href", "#i1")]]).Nodup ∧
    (∀ el ∈ ([[("id", "i1")], [("for", "i1")], [("href", "#i1")]] :
        List Element),
      ¬(truthyAttr (getAttr el "href") = true
        ∧ truthyAttr (getAttr el "for") = true)) ∧
    (∀ k < (autoIdxs [[("id", "i1")], [("for", "i1")], [("href", "#i1")]]).length,
      ("id-" ++ "u")
        ∉ docIds [[("id", "i1")], [("for", "i1")], [("href", "#i1")]]) ∧
    (∃ oldId,
      attrAt [[("id", "i1")], [("for", "i1")], [("href", "#i1")]] 0 "id"
        = some oldId ∧
      attrAt (remapIds (fun _ => "u")
          [[("id", "i1")], [("for", "i1")], [("href", "#i1")]]) 0 "id"
        = some ("id-" ++ "u") ∧
      (∀ j, attrAt [[("id", "i1")], [("for", "i1")], [("href", "#i1")]] j "for"
          = some oldId →
        attrAt (remapIds (fun _ => "u")
            [[("id", "i1")], [("for", "i1")], [("href", "#i1")]]) j "for"
          = some ("id-" ++ "u")) ∧
      (∀ j, attrAt [[("id", "i1")], [("for", "i1")], [("href", "#i1")]] j "href"
          = some ("#" ++ oldId) →
        attrAt (remapIds (fun _ => "u")
            [[("id", "i1")], [("for", "i1")], [("href", "#i1")]]) j "href"
          = some ("#" ++ ("id-" ++ "u")))) :=
  ⟨by decide, by decide, by decide,
    C1_amended_refs_rewritten [[("id", "i1")], [("for", "i1")], [("href", "#i1")]]
      (fun _ => "u") (by decide) (by decide) (by decide) 0 0 (by decide)⟩

/-! ### Claim C2 -/

/-- C2: evaluation at the failing input.  The element at position `2`
carries `href="#i1"` (a fragment reference to the pattern-matching id `i1`)
and `for="other"` (a label reference to the distinct, non-matching id
`other`).  The code overwrites that `for` attribute with `i1`'s replacement
id, while the claim requires it to stay untouched; the non-matching id
itself stays in place. -/
theorem C2_code_overwrites_foreign_for :
    attrAt [[("id", "i1")], [("id", "other")],
        [("href", "#i1"), ("for", "other")]] 2 "for" = some "other" ∧
    attrAt [[("id", "i1")], [("id", "other")],
        [("href", "#i1"), ("for", "other")]] 1 "id" = some "other" ∧
    idValueAuto "other" = false ∧
    attrAt (remapIds (fun _ => "u") [[("id", "i1")], [("id", "other")],
        [("href", "#i1"), ("for", "other")]]) 2 "for" = some ("id-" ++ "u") ∧
    attrAt (remapIds (fun _ => "u") [[("id", "i1")], [("id", "other")],
        [("href", "#i1"), ("for", "other")]]) 1 "id" = some "other" ∧
    some ("id-" ++ "u") ≠ some "other" := by
  decide

end JuiceServer
